import Mathlib

/-!
Verification development for the `nav2_route` edge-scoring and
path-densification core (`src/nav2_route/src/route_server.cpp`).

Floating-point values of the C++ source are modelled as exact rationals.
The C library call `hypotf` (Euclidean norm) is not rational-valued in
general, so it is embedded as an explicit function parameter `hy`;
theorems that depend on its value constrain it by the defining property
of the Euclidean distance (`mag ^ 2 = dx ^ 2 + dy ^ 2`, `0 ≤ mag`) at
the points where it is applied.  Unsigned 32-bit machine arithmetic is
modelled on `Nat` with explicit `% 2 ^ 32`.
-/

set_option autoImplicit false

namespace Nav2Route

/-- 2D coordinates of a graph node, `nav2_route::Coordinates` (`x`, `y`). -/
structure Coordinates where
  x : ℚ
  y : ℚ
  deriving DecidableEq, Repr

/-- Typed metadata value: the metadata store maps string keys to a
float, integer or string value. -/
inductive MetaVal where
  | f (v : ℚ)
  | i (v : ℤ)
  | s (v : String)
  deriving DecidableEq, Repr

/-- Metadata store attached to nodes and edges: a string-keyed map of
typed values, keys unique per store. -/
structure Metadata where
  data : List (String × MetaVal)
  deriving DecidableEq, Repr

/-- Lookup of a metadata key; absence is a valid state, not an error. -/
def Metadata.getValue (md : Metadata) (k : String) : Option MetaVal :=
  md.data.lookup k

/-- Set a metadata value, replacing any previous binding of the key. -/
def Metadata.setValue (md : Metadata) (k : String) (v : MetaVal) : Metadata :=
  ⟨(k, v) :: md.data.filter (fun p => p.1 != k)⟩

/-- Empty metadata store. -/
def Metadata.empty : Metadata := ⟨[]⟩

/-- Graph node: integer identifier, 2D coordinates, metadata store. -/
structure Node where
  nodeid : ℕ
  coords : Coordinates
  metadata : Metadata
  deriving DecidableEq, Repr

/-- Directed edge between two nodes.  The C++ struct holds non-owning
pointers to its start and end nodes; the embedding stores the node
values directly.  (`end` is a Lean keyword, hence `endN`.) -/
structure DirectionalEdge where
  edgeid : ℕ
  start : Node
  endN : Node
  metadata : Metadata
  deriving DecidableEq, Repr

/-- A route: ordered directional edges plus the start node; the edge
list may be empty (degenerate single-node route). -/
structure Route where
  start_node : Node
  edges : List DirectionalEdge
  deriving DecidableEq, Repr

/-- Rerouting state: an optional previously traversed partial edge and
the closest point on that edge where progress stopped. -/
structure ReroutingState where
  curr_edge : Option DirectionalEdge
  closest_pt_on_edge : Coordinates
  deriving DecidableEq, Repr

/-!  Path Densifier (`PathConverter::interpolateEdge` / `densify`). -/

/-- Points pushed by the interpolation marching loop of
`PathConverter::interpolateEdge`: starting from `(x, y)`, repeatedly
step by `(ux * d, uy * d)` and push the new point, `fuel` times
(`while (pt_ctr < num_pts - 1) { x += ux * d; y += uy * d; push; }`). -/
def marchPoints (ux uy d : ℚ) (x y : ℚ) : ℕ → List Coordinates
  | 0 => []
  | n + 1 =>
    let x2 := x + ux * d
    let y2 := y + uy * d
    ⟨x2, y2⟩ :: marchPoints ux uy d x2 y2 n

/-- The list of poses pushed by one call of
`PathConverter::interpolateEdge` (the source appends them to the
caller's vector; see `interpolateEdge`).  Mirrors the source body:
`mag = hypotf(x1-x0, y1-y0)`, `num_pts = ceil(mag / density)` as an
unsigned 32-bit integer, `iterpolated_dist = mag / num_pts`, unit
vector `(ux, uy)`, push the start point, then loop while
`pt_ctr < num_pts - 1` where `num_pts - 1` is unsigned (wraps to
`2 ^ 32 - 1` when `num_pts = 0`). -/
def interpPoints (hy : ℚ → ℚ → ℚ) (density x0 y0 x1 y1 : ℚ) : List Coordinates :=
  let mag := hy (x1 - x0) (y1 - y0)
  let num_pts : ℕ := (⌈mag / density⌉).toNat % 2 ^ 32
  let iterpolated_dist := mag / (num_pts : ℚ)
  let ux := (x1 - x0) / mag
  let uy := (y1 - y0) / mag
  ⟨x0, y0⟩ ::
    marchPoints ux uy iterpolated_dist x0 y0 ((num_pts + (2 ^ 32 - 1)) % 2 ^ 32)

/-- `PathConverter::interpolateEdge`: appends the interpolated points of
the segment `(x0, y0) → (x1, y1)` to the pose vector `poses`.  `hy`
embeds `hypotf` and `density` the configured `path_density`. -/
def interpolateEdge (hy : ℚ → ℚ → ℚ) (density x0 y0 x1 y1 : ℚ)
    (poses : List Coordinates) : List Coordinates :=
  poses ++ interpPoints hy density x0 y0 x1 y1

/-- `PathConverter::densify`: optional partial-edge resume segment,
then every route edge interpolated in order, then the final coordinate
(last edge's end point, or the start node for an edge-free route). -/
def densify (hy : ℚ → ℚ → ℚ) (density : ℚ) (route : Route)
    (rerouting_info : ReroutingState) : List Coordinates :=
  let poses0 : List Coordinates :=
    match rerouting_info.curr_edge with
    | some e =>
      interpolateEdge hy density
        rerouting_info.closest_pt_on_edge.x rerouting_info.closest_pt_on_edge.y
        e.endN.coords.x e.endN.coords.y []
    | none => []
  let poses := route.edges.foldl
    (fun acc e =>
      interpolateEdge hy density
        e.start.coords.x e.start.coords.y e.endN.coords.x e.endN.coords.y acc)
    poses0
  match route.edges.getLast? with
  | none => poses ++ [route.start_node.coords]
  | some e => poses ++ [e.endN.coords]

/-!  Edge-scoring plugins.  The plugin implementations of this repository
are not among the sources (only their tests are), so they are modelled
from the specification, against the behavior the tests exercise. -/

/-- Modelled from the spec: the Dynamic Adjustment (`AdjustEdgesScorer`)
plugin implementation is missing from the sources; per §3/§4.7 it keeps a
ClosedEdgeSet of edge identifiers currently closed and an OverrideCostMap
from edge identifier to overriding cost, both empty at construction and
mutated only through the administrative control channel. -/
structure AdjustEdgesState where
  closed_edges : List ℕ
  cost_overrides : List (ℕ × ℚ)
  deriving DecidableEq, Repr

/-- Modelled from the spec: `score(edge)` of the Dynamic Adjustment
scorer — if `edge.id` is in the ClosedEdgeSet, not traversable (`none`);
else an override cost if one is stored; else cost `0`. -/
def AdjustEdgesScorer.score (st : AdjustEdgesState) (edge : DirectionalEdge) :
    Option ℚ :=
  if edge.edgeid ∈ st.closed_edges then none
  else
    match st.cost_overrides.lookup edge.edgeid with
    | some c => some c
    | none => some 0

/-- Modelled from the spec: administrative close operation — add edge
identifiers to the ClosedEdgeSet (removal from the OverrideCostMap is not
implied). -/
def AdjustEdgesScorer.closeEdges (st : AdjustEdgesState) (ids : List ℕ) :
    AdjustEdgesState :=
  ⟨ids ++ st.closed_edges, st.cost_overrides⟩

/-- Modelled from the spec: administrative reopen operation — remove edge
identifiers from the ClosedEdgeSet. -/
def AdjustEdgesScorer.openEdges (st : AdjustEdgesState) (ids : List ℕ) :
    AdjustEdgesState :=
  ⟨st.closed_edges.filter (fun i => !(ids.contains i)), st.cost_overrides⟩

/-- Modelled from the spec: companion administrative operation setting
`(edgeId, cost)` pairs into the OverrideCostMap. -/
def AdjustEdgesScorer.setOverrides (st : AdjustEdgesState)
    (adjustments : List (ℕ × ℚ)) : AdjustEdgesState :=
  ⟨st.closed_edges, adjustments ++ st.cost_overrides⟩

/-- Modelled from the spec: default maximum speed of the Time Scorer
(`0.5 m/s` per the test expectations in §8). -/
def TimeScorer.default_max_speed : ℚ := 1 / 2

/-- Modelled from the spec: the `TimeScorer` plugin implementation is
missing from the sources; per §4.4 the cost is `abs_time_taken` from
edge metadata when present (measured ground truth wins), else
`distance / speed` with `speed` taken from `abs_speed_limit` metadata
when present and the configured default maximum speed otherwise.
Always traversable. -/
def TimeScorer.score (hy : ℚ → ℚ → ℚ) (max_speed : ℚ)
    (edge : DirectionalEdge) : Option ℚ :=
  match edge.metadata.getValue "abs_time_taken" with
  | some (MetaVal.f t) => some t
  | _ =>
    let d := hy (edge.endN.coords.x - edge.start.coords.x)
      (edge.endN.coords.y - edge.start.coords.y)
    match edge.metadata.getValue "abs_speed_limit" with
    | some (MetaVal.f s) => some (d / s)
    | _ => some (d / max_speed)

/-- Modelled from the spec: the three boolean edge-case policies and the
aggregation mode of the Costmap Scorer (§4.6). -/
structure CostmapConfig where
  use_maximum : Bool
  invalid_on_collision : Bool
  invalid_off_map : Bool
  deriving DecidableEq, Repr

/-- Modelled from the spec: defaults — maximum aggregation,
`invalid_on_collision = true`, `invalid_off_map = true`. -/
def CostmapScorer.defaultConfig : CostmapConfig := ⟨true, true, true⟩

/-- Modelled from the spec: a 2D cost raster with per-cell cost values
and a lethal sentinel. -/
structure Costmap where
  size_x : ℕ
  size_y : ℕ
  resolution : ℚ
  cost : ℕ → ℕ → ℕ

/-- Lethal/maximum raster cost sentinel (254 in the tests). -/
def lethal_cost : ℕ := 254

/-- Modelled from the spec: the `CostmapScorer` plugin implementation is
missing from the sources; per §4.6 it samples the raster along the
straight segment between the endpoints (fixed-step line walk, an
implementation choice per §9), aggregates by maximum or distance-weighted
average, applies the three edge-case policies, and normalizes by the
raster's maximum cost value.  When no raster has been supplied the scorer
reports not-traversable, except when off-map is non-fatal, in which case
raster absence behaves like a fully off-map segment (cost 0,
traversable). -/
def CostmapScorer.score (hy : ℚ → ℚ → ℚ) (cfg : CostmapConfig)
    (costmap : Option Costmap) (x0 y0 x1 y1 : ℚ) : Option ℚ :=
  match costmap with
  | none => if cfg.invalid_off_map then none else some 0
  | some cm =>
    let mag := hy (x1 - x0) (y1 - y0)
    let n := (⌈mag / cm.resolution⌉).toNat
    let steps : ℚ := (max n 1 : ℕ)
    let cells := (List.range (n + 1)).map (fun k =>
      (⌊(x0 + (x1 - x0) * k / steps) / cm.resolution⌋,
       ⌊(y0 + (y1 - y0) * k / steps) / cm.resolution⌋))
    let inB : ℤ × ℤ → Bool := fun c =>
      decide (0 ≤ c.1) && decide (c.1 < (cm.size_x : ℤ)) &&
      decide (0 ≤ c.2) && decide (c.2 < (cm.size_y : ℤ))
    if cfg.invalid_off_map && cells.any (fun c => !(inB c)) then none
    else
      let costs := (cells.filter inB).map (fun c => cm.cost c.1.toNat c.2.toNat)
      if cfg.invalid_on_collision && costs.any (fun c => c == lethal_cost) then none
      else
        let raw : ℚ :=
          if cfg.use_maximum then ((costs.foldl max 0 : ℕ) : ℚ)
          else if costs.length = 0 then 0
          else ((costs.sum : ℕ) : ℚ) / (costs.length : ℚ)
        some (raw / (lethal_cost : ℚ))

/-- Modelled from the spec: weight of a semantic class name in the
configured class table; unknown class names contribute nothing. -/
def classWeight (semantic_classes : List (String × ℚ)) (c : String) : ℚ :=
  ((semantic_classes.lookup c).getD 0)

/-- Modelled from the spec: contribution of one metadata store to the
Semantic Scorer.  In value mode (non-empty semantic key, default
`"class"`) the value stored under the semantic key is resolved against
the class table; in key mode (empty semantic key) every class name
present as a metadata key contributes its weight. -/
def SemanticScorer.metadataContribution (semantic_classes : List (String × ℚ))
    (semantic_key : String) (md : Metadata) : ℚ :=
  if semantic_key = "" then
    (semantic_classes.map (fun cw =>
      match md.getValue cw.1 with
      | some _ => cw.2
      | none => 0)).sum
  else
    match md.getValue semantic_key with
    | some (MetaVal.s c) => classWeight semantic_classes c
    | _ => 0

/-- Modelled from the spec: the `SemanticScorer` plugin implementation is
missing from the sources; per §4.5 the cost sums the contributions of the
edge's metadata and, independently, the end node's metadata.  Always
traversable. -/
def SemanticScorer.score (semantic_classes : List (String × ℚ))
    (semantic_key : String) (edge : DirectionalEdge) : Option ℚ :=
  some (SemanticScorer.metadataContribution semantic_classes semantic_key edge.metadata +
    SemanticScorer.metadataContribution semantic_classes semantic_key edge.endN.metadata)

/-- Modelled from the spec: configuration failure of the Composite
Scoring Engine — a named plugin that cannot be resolved/instantiated. -/
structure ConfigurationError where
  plugin_name : String
  deriving DecidableEq, Repr

/-- Modelled from the spec: the `EdgeScorer` composite engine
construction is missing from the sources; per §4.1/§9 it resolves each
configured plugin name through a host-provided registry, failing with a
`ConfigurationError` on the first name that does not resolve, and holds
the ordered list of resolved plugins. -/
def EdgeScorer.loadPlugins
    (registry : String → Option (DirectionalEdge → Option ℚ)) :
    List String → Except ConfigurationError (List (DirectionalEdge → Option ℚ))
  | [] => Except.ok []
  | nm :: rest =>
    match registry nm with
    | none => Except.error ⟨nm⟩
    | some p =>
      match EdgeScorer.loadPlugins registry rest with
      | Except.error err => Except.error err
      | Except.ok ps => Except.ok (p :: ps)

/-- Modelled from the spec: `numPlugins()` reports the active plugin
count of a successfully constructed engine. -/
def EdgeScorer.numPlugins (plugins : List (DirectionalEdge → Option ℚ)) : ℕ :=
  plugins.length

/-! Helper lemmas about the interpolation loop. -/

theorem marchPoints_length (ux uy d x y : ℚ) (n : ℕ) :
    (marchPoints ux uy d x y n).length = n := by
  induction n generalizing x y with
  | zero => rfl
  | succ m ih => simp [marchPoints, ih]

theorem marchPoints_eq_map (ux uy d : ℚ) (n : ℕ) (x y : ℚ) :
    marchPoints ux uy d x y n =
      (List.range n).map (fun k =>
        ⟨x + ux * (d * (k + 1)), y + uy * (d * (k + 1))⟩) := by
  induction n generalizing x y with
  | zero => rfl
  | succ m ih =>
    rw [marchPoints, List.range_succ_eq_map, List.map_cons, List.map_map]
    simp only [Nat.cast_zero, mul_zero, zero_add, mul_one]
    refine List.cons_eq_cons.mpr ⟨rfl, ?_⟩
    rw [ih]
    refine List.map_congr_left fun k _ => ?_
    have : ((k + 1 : ℕ) : ℚ) = (k : ℚ) + 1 := by push_cast; ring
    simp only [Function.comp_apply, Nat.succ_eq_add_one, this, Coordinates.mk.injEq]
    constructor <;> ring

theorem interpPoints_length (hy : ℚ → ℚ → ℚ) (density x0 y0 x1 y1 : ℚ) :
    (interpPoints hy density x0 y0 x1 y1).length =
      ((⌈hy (x1 - x0) (y1 - y0) / density⌉).toNat % 2 ^ 32 + (2 ^ 32 - 1)) % 2 ^ 32 + 1 := by
  simp only [interpPoints]
  rw [List.length_cons]
  rw [marchPoints_length]

theorem interpPoints_head (hy : ℚ → ℚ → ℚ) (density x0 y0 x1 y1 : ℚ) :
    (interpPoints hy density x0 y0 x1 y1).head? = some ⟨x0, y0⟩ := rfl

/-- Closed form of the interpolation output under the nominal
preconditions: point `k` (for `k < n`) sits at parameter `k / n` along
the unit direction vector from the start point. -/
theorem interpPoints_closed_form (hy : ℚ → ℚ → ℚ) (density x0 y0 x1 y1 mag : ℚ)
    (n : ℕ) (hmag : hy (x1 - x0) (y1 - y0) = mag)
    (hn : (⌈mag / density⌉).toNat = n) (hn1 : 1 ≤ n) (hlt : n < 2 ^ 32) :
    interpPoints hy density x0 y0 x1 y1 =
      (List.range n).map (fun k =>
        ⟨x0 + (x1 - x0) / mag * (mag / (n : ℚ) * k),
         y0 + (y1 - y0) / mag * (mag / (n : ℚ) * k)⟩) := by
  obtain ⟨m, rfl⟩ : ∃ m, n = m + 1 := ⟨n - 1, by omega⟩
  have hnum : (⌈mag / density⌉).toNat % 2 ^ 32 = m + 1 := by
    rw [hn]; exact Nat.mod_eq_of_lt hlt
  have hfuel : (m + 1 + (2 ^ 32 - 1)) % 2 ^ 32 = m := by omega
  simp only [interpPoints, hmag, hnum, hfuel]
  rw [marchPoints_eq_map, List.range_succ_eq_map, List.map_cons, List.map_map]
  simp only [Nat.cast_zero, mul_zero, add_zero]
  refine List.cons_eq_cons.mpr ⟨rfl, ?_⟩
  refine List.map_congr_left fun k _ => ?_
  simp only [Function.comp_apply, Nat.succ_eq_add_one, Coordinates.mk.injEq]
  constructor <;> (push_cast; ring)

/-- Folding an append-accumulating function factors the initial
accumulator out front. -/
theorem foldl_append_eq {α β : Type} (g : α → List β) (l : List α) (init : List β) :
    l.foldl (fun acc a => acc ++ g a) init =
      init ++ l.foldl (fun acc a => acc ++ g a) [] := by
  induction l generalizing init with
  | nil => simp
  | cons a t ih =>
    simp only [List.foldl_cons, List.nil_append]
    rw [ih (init ++ g a), ih (g a), List.append_assoc]

/-- C1: for every segment given to the interpolation step with endpoints at
Euclidean distance `mag` and configured sample spacing `density`, the
interpolation emits exactly `n = ceil(mag / density)` evenly spaced points
(point `k` lies `k` step lengths along the unit direction vector from the
start), each consecutive pair separated by step length `mag / n`, the first
emitted point is the segment's start, and the segment's end point is not
among the `n` emitted points. -/
theorem interpolation_emits_ceil_evenly_spaced_points
    (hy : ℚ → ℚ → ℚ) (density x0 y0 x1 y1 mag : ℚ) (n : ℕ)
    (hmag : hy (x1 - x0) (y1 - y0) = mag)
    (hsq : mag ^ 2 = (x1 - x0) ^ 2 + (y1 - y0) ^ 2)
    (hmagpos : 0 < mag) (hdens : 0 < density)
    (hn : n = (⌈mag / density⌉).toNat) (hlt : n < 2 ^ 32) :
    (interpPoints hy density x0 y0 x1 y1).length = n ∧
    interpPoints hy density x0 y0 x1 y1 =
      (List.range n).map (fun k =>
        ⟨x0 + (x1 - x0) / mag * (mag / (n : ℚ) * k),
         y0 + (y1 - y0) / mag * (mag / (n : ℚ) * k)⟩) ∧
    (interpPoints hy density x0 y0 x1 y1).head? = some ⟨x0, y0⟩ ∧
    List.Chain'
      (fun p q => (q.x - p.x) ^ 2 + (q.y - p.y) ^ 2 = (mag / (n : ℚ)) ^ 2)
      (interpPoints hy density x0 y0 x1 y1) ∧
    Coordinates.mk x1 y1 ∉ interpPoints hy density x0 y0 x1 y1 := by
  have hceil : 0 < ⌈mag / density⌉ := Int.ceil_pos.mpr (div_pos hmagpos hdens)
  have hn1 : 1 ≤ n := by rw [hn]; omega
  have hclosed := interpPoints_closed_form hy density x0 y0 x1 y1 mag n hmag hn.symm hn1 hlt
  have hmagne : mag ≠ 0 := ne_of_gt hmagpos
  have hnne : ((n : ℚ)) ≠ 0 := Nat.cast_ne_zero.mpr (by omega)
  have hux2 : ((x1 - x0) / mag) ^ 2 + ((y1 - y0) / mag) ^ 2 = 1 := by
    rw [div_pow, div_pow, div_add_div_same, ← hsq]
    exact div_self (pow_ne_zero 2 hmagne)
  refine ⟨?_, hclosed, interpPoints_head hy density x0 y0 x1 y1, ?_, ?_⟩
  · rw [hclosed, List.length_map, List.length_range]
  · rw [hclosed, List.chain'_map]
    obtain ⟨m, rfl⟩ : ∃ m, n = m + 1 := ⟨n - 1, by omega⟩
    refine (List.chain'_range_succ _ m).mpr fun j hj => ?_
    dsimp only
    have hcast : ((j + 1 : ℕ) : ℚ) = (j : ℚ) + 1 := by push_cast; ring
    rw [Nat.succ_eq_add_one, hcast]
    linear_combination (mag / ((m + 1 : ℕ) : ℚ)) ^ 2 * hux2
  · intro hmem
    rw [hclosed] at hmem
    obtain ⟨k, hk, heq⟩ := List.mem_map.mp hmem
    have hk' : k < n := List.mem_range.mp hk
    rw [Coordinates.mk.injEq] at heq
    obtain ⟨hx, hyy⟩ := heq
    have hxk : (x1 - x0) * ((k : ℚ) - n) = 0 := by
      have h := hx
      field_simp at h
      have hmul : mag * ((x1 - x0) * ((k : ℚ) - n)) = 0 := by linear_combination h
      rcases mul_eq_zero.mp hmul with hh | hh
      · exact absurd hh hmagne
      · exact hh
    have hyk : (y1 - y0) * ((k : ℚ) - n) = 0 := by
      have h := hyy
      field_simp at h
      have hmul : mag * ((y1 - y0) * ((k : ℚ) - n)) = 0 := by linear_combination h
      rcases mul_eq_zero.mp hmul with hh | hh
      · exact absurd hh hmagne
      · exact hh
    have hkn : ((k : ℚ)) - n ≠ 0 := by
      refine sub_ne_zero.mpr ?_
      exact_mod_cast Nat.ne_of_lt hk'
    have hx0 : x1 - x0 = 0 := by
      rcases mul_eq_zero.mp hxk with h | h
      · exact h
      · exact absurd h hkn
    have hy0 : y1 - y0 = 0 := by
      rcases mul_eq_zero.mp hyk with h | h
      · exact h
      · exact absurd h hkn
    have : mag ^ 2 = 0 := by rw [hsq, hx0, hy0]; ring
    exact hmagne (pow_eq_zero_iff (n := 2) (by norm_num) |>.mp this)

/-- Witness for C1: the segment `(0,0) → (3,4)` (Euclidean length `5`)
with density `2` yields `n = ceil(5/2) = 3` points, starts at `(0,0)`,
and does not contain the end point `(3,4)`. -/
theorem interpolation_emits_ceil_evenly_spaced_points_witness :
    (0 : ℚ) < 5 ∧ (0 : ℚ) < 2 ∧ (5 : ℚ) ^ 2 = (3 - 0) ^ 2 + (4 - 0) ^ 2 ∧
    (interpPoints (fun _ _ => (5 : ℚ)) 2 0 0 3 4).length = 3 ∧
    (interpPoints (fun _ _ => (5 : ℚ)) 2 0 0 3 4).head? = some ⟨0, 0⟩ ∧
    Coordinates.mk 3 4 ∉ interpPoints (fun _ _ => (5 : ℚ)) 2 0 0 3 4 := by
  have hceil : (⌈(5 : ℚ) / 2⌉ : ℤ) = 3 := by rw [Int.ceil_eq_iff]; norm_num
  have h := interpolation_emits_ceil_evenly_spaced_points (fun _ _ => (5 : ℚ)) 2 0 0 3 4 5 3
    rfl (by norm_num) (by norm_num) (by norm_num) (by rw [hceil]; rfl) (by norm_num)
  exact ⟨by norm_num, by norm_num, by norm_num, h.1, h.2.2.1, h.2.2.2.2⟩

/-- C10: for every call to `interpolateEdge` with `density > 0` and
endpoints at strictly positive distance `mag` (with a representable point
count), the function appends exactly `ceil(mag / density)` poses to the
output vector, the first appended pose being the start point.  Strict
positivity of `mag` is required: at `mag = 0` the unsigned point count
`num_pts` is `0` and the loop bound `num_pts - 1` wraps to `2^32 - 1`, so
`2^32` poses are appended instead of `ceil(0 / density) = 0`. -/
theorem interpolateEdge_appends_ceil_poses
    (hy : ℚ → ℚ → ℚ) (density x0 y0 x1 y1 mag : ℚ) (poses : List Coordinates)
    (hmag : hy (x1 - x0) (y1 - y0) = mag)
    (hdens : 0 < density)
    (hlt : (⌈mag / density⌉).toNat < 2 ^ 32) :
    interpolateEdge hy density x0 y0 x1 y1 poses =
      poses ++ interpPoints hy density x0 y0 x1 y1 ∧
    (0 < mag →
      (interpolateEdge hy density x0 y0 x1 y1 poses).length =
        poses.length + (⌈mag / density⌉).toNat) ∧
    (interpPoints hy density x0 y0 x1 y1).head? = some ⟨x0, y0⟩ ∧
    (mag = 0 →
      (interpolateEdge hy density x0 y0 x1 y1 poses).length =
        poses.length + 2 ^ 32) := by
  refine ⟨rfl, ?_, interpPoints_head hy density x0 y0 x1 y1, ?_⟩
  · intro hpos
    have hceil : 0 < ⌈mag / density⌉ := Int.ceil_pos.mpr (div_pos hpos hdens)
    rw [interpolateEdge, List.length_append, interpPoints_length, hmag]
    omega
  · intro h0
    have hc : (⌈mag / density⌉ : ℤ) = 0 := by rw [h0, zero_div, Int.ceil_zero]
    rw [interpolateEdge, List.length_append, interpPoints_length, hmag, hc]
    omega

/-- Witness for C10: the segment `(0,0) → (1,0)` (length `1`) with
density `1/2` appends `ceil(1 / (1/2)) = 2` poses to an empty vector. -/
theorem interpolateEdge_appends_ceil_poses_witness :
    (0 : ℚ) < 1 / 2 ∧ (0 : ℚ) < 1 ∧
    (interpolateEdge (fun _ _ => (1 : ℚ)) (1 / 2) 0 0 1 0 []).length = 2 := by
  have hc : (⌈(1 : ℚ) / (1 / 2)⌉ : ℤ) = 2 := by rw [Int.ceil_eq_iff]; norm_num
  have h := interpolateEdge_appends_ceil_poses (fun _ _ => (1 : ℚ)) (1 / 2) 0 0 1 0 1 []
    rfl (by norm_num) (by rw [hc]; norm_num)
  refine ⟨by norm_num, by norm_num, ?_⟩
  have hlen := h.2.1 (by norm_num)
  rw [hlen, hc]
  rfl

/-- C2: with no rerouting partial edge, `densify` appends as the path's
final point the end coordinates of the route's last edge when the route
has at least one edge; a route with zero edges yields exactly one point,
equal to the start node's coordinates. -/
theorem densify_final_point (hy : ℚ → ℚ → ℚ) (density : ℚ)
    (route : Route) (rr : ReroutingState) (hrr : rr.curr_edge = none) :
    (route.edges = [] → densify hy density route rr = [route.start_node.coords]) ∧
    (∀ e, route.edges.getLast? = some e →
      (densify hy density route rr).getLast? = some e.endN.coords) := by
  constructor
  · intro h
    simp only [densify, hrr, h, List.foldl_nil, List.getLast?_nil, List.nil_append]
  · intro e he
    simp only [densify, hrr, he]
    exact List.getLast?_concat _

/-- Witness for C2: a route with a single edge from `(0,0)` to `(1,0)`
and no rerouting state ends at the edge's end point `(1,0)`; a route
with zero edges yields exactly the one-point path at its start node. -/
theorem densify_final_point_witness :
    (densify (fun _ _ => (1 : ℚ)) (1 / 2)
        ⟨⟨1, ⟨0, 0⟩, ⟨[]⟩⟩, [⟨5, ⟨1, ⟨0, 0⟩, ⟨[]⟩⟩, ⟨2, ⟨1, 0⟩, ⟨[]⟩⟩, ⟨[]⟩⟩]⟩
        ⟨none, ⟨0, 0⟩⟩).getLast? = some ⟨1, 0⟩ ∧
    densify (fun _ _ => (1 : ℚ)) (1 / 2) ⟨⟨7, ⟨3, 4⟩, ⟨[]⟩⟩, []⟩ ⟨none, ⟨0, 0⟩⟩ =
      [⟨3, 4⟩] := by
  constructor
  · exact (densify_final_point (fun _ _ => (1 : ℚ)) (1 / 2)
      ⟨⟨1, ⟨0, 0⟩, ⟨[]⟩⟩, [⟨5, ⟨1, ⟨0, 0⟩, ⟨[]⟩⟩, ⟨2, ⟨1, 0⟩, ⟨[]⟩⟩, ⟨[]⟩⟩]⟩
      ⟨none, ⟨0, 0⟩⟩ rfl).2 ⟨5, ⟨1, ⟨0, 0⟩, ⟨[]⟩⟩, ⟨2, ⟨1, 0⟩, ⟨[]⟩⟩, ⟨[]⟩⟩ rfl
  · exact (densify_final_point (fun _ _ => (1 : ℚ)) (1 / 2)
      ⟨⟨7, ⟨3, 4⟩, ⟨[]⟩⟩, []⟩ ⟨none, ⟨0, 0⟩⟩ rfl).1 rfl

/-- C3: when the rerouting state carries a current partial edge, the
produced path consists of the points interpolated from the stored
closest point on that edge to the edge's end node, followed by the path
generated without the partial edge (the route's own edges); in
particular the path's first point is the stored closest point, not the
route's nominal start. -/
theorem densify_resumes_from_partial_edge (hy : ℚ → ℚ → ℚ) (density : ℚ)
    (route : Route) (rr : ReroutingState) (e : DirectionalEdge)
    (hrr : rr.curr_edge = some e) :
    densify hy density route rr =
      interpPoints hy density rr.closest_pt_on_edge.x rr.closest_pt_on_edge.y
          e.endN.coords.x e.endN.coords.y ++
        densify hy density route ⟨none, rr.closest_pt_on_edge⟩ ∧
    (densify hy density route rr).head? = some rr.closest_pt_on_edge := by
  have hfold : ∀ init : List Coordinates, route.edges.foldl
      (fun acc e2 => acc ++ interpPoints hy density
        e2.start.coords.x e2.start.coords.y e2.endN.coords.x e2.endN.coords.y)
      init =
      init ++ route.edges.foldl
        (fun acc e2 => acc ++ interpPoints hy density
          e2.start.coords.x e2.start.coords.y e2.endN.coords.x e2.endN.coords.y)
        [] := fun init =>
    foldl_append_eq
      (fun e2 => interpPoints hy density
        e2.start.coords.x e2.start.coords.y e2.endN.coords.x e2.endN.coords.y)
      route.edges init
  have hmain : densify hy density route rr =
      interpPoints hy density rr.closest_pt_on_edge.x rr.closest_pt_on_edge.y
          e.endN.coords.x e.endN.coords.y ++
        densify hy density route ⟨none, rr.closest_pt_on_edge⟩ := by
    cases hLast : route.edges.getLast? with
    | none =>
      simp only [densify, hrr, hLast, interpolateEdge, List.nil_append]
      rw [hfold, List.append_assoc]
    | some e2 =>
      simp only [densify, hrr, hLast, interpolateEdge, List.nil_append]
      rw [hfold, List.append_assoc]
  refine ⟨hmain, ?_⟩
  rw [hmain]
  simp only [interpPoints, List.cons_append, List.head?_cons]

/-- Witness for C3: rerouting with a partial edge ending at `(2,0)` and
closest point `(1,0)` makes the path resume at `(1,0)` rather than the
route's nominal start `(0,0)`. -/
theorem densify_resumes_from_partial_edge_witness :
    (densify (fun _ _ => (1 : ℚ)) (1 / 2)
        ⟨⟨1, ⟨0, 0⟩, ⟨[]⟩⟩, []⟩
        ⟨some ⟨9, ⟨1, ⟨0, 0⟩, ⟨[]⟩⟩, ⟨2, ⟨2, 0⟩, ⟨[]⟩⟩, ⟨[]⟩⟩, ⟨1, 0⟩⟩).head? =
      some ⟨1, 0⟩ :=
  (densify_resumes_from_partial_edge (fun _ _ => (1 : ℚ)) (1 / 2)
    ⟨⟨1, ⟨0, 0⟩, ⟨[]⟩⟩, []⟩
    ⟨some ⟨9, ⟨1, ⟨0, 0⟩, ⟨[]⟩⟩, ⟨2, ⟨2, 0⟩, ⟨[]⟩⟩, ⟨[]⟩⟩, ⟨1, 0⟩⟩
    ⟨9, ⟨1, ⟨0, 0⟩, ⟨[]⟩⟩, ⟨2, ⟨2, 0⟩, ⟨[]⟩⟩, ⟨[]⟩⟩ rfl).2

theorem Metadata.getValue_setValue_self (md : Metadata) (k : String) (v : MetaVal) :
    (md.setValue k v).getValue k = some v := by
  simp [Metadata.getValue, Metadata.setValue, List.lookup]

/-- C4: the Dynamic Adjustment scorer reports not-traversable exactly
when the edge's identifier is in the ClosedEdgeSet; otherwise an
OverrideCostMap entry gives the cost, else the cost is `0`; and
reopening an edge (removing it from the ClosedEdgeSet) restores its
traversability. -/
theorem adjust_edges_scoring (st : AdjustEdgesState) (edge : DirectionalEdge) :
    (AdjustEdgesScorer.score st edge = none ↔ edge.edgeid ∈ st.closed_edges) ∧
    (∀ c, edge.edgeid ∉ st.closed_edges →
      st.cost_overrides.lookup edge.edgeid = some c →
      AdjustEdgesScorer.score st edge = some c) ∧
    (edge.edgeid ∉ st.closed_edges →
      st.cost_overrides.lookup edge.edgeid = none →
      AdjustEdgesScorer.score st edge = some 0) ∧
    AdjustEdgesScorer.score
      (AdjustEdgesScorer.openEdges st [edge.edgeid]) edge ≠ none := by
  refine ⟨?_, ?_, ?_, ?_⟩
  · by_cases hmem : edge.edgeid ∈ st.closed_edges
    · simp [AdjustEdgesScorer.score, hmem]
    · simp only [AdjustEdgesScorer.score, if_neg hmem]
      constructor
      · intro h
        rcases hl : st.cost_overrides.lookup edge.edgeid with _ | c <;> rw [hl] at h <;>
          simp at h
      · intro h
        exact absurd h hmem
  · intro c hmem hl
    simp [AdjustEdgesScorer.score, hmem, hl]
  · intro hmem hl
    simp [AdjustEdgesScorer.score, hmem, hl]
  · have hnot : edge.edgeid ∉
        (st.closed_edges.filter (fun i => !(([edge.edgeid] : List ℕ).contains i))) := by
      simp [List.mem_filter]
    simp only [AdjustEdgesScorer.score, AdjustEdgesScorer.openEdges, if_neg hnot]
    rcases st.cost_overrides.lookup edge.edgeid with _ | c <;> simp

/-- Witness for C4, mirroring the test: with edge `10` closed and an
override cost `42` stored for edge `11`, edge `10` scores
not-traversable, edge `11` scores `42`, and reopening edge `10`
restores traversability. -/
theorem adjust_edges_scoring_witness :
    AdjustEdgesScorer.score ⟨[10], [(11, 42)]⟩ ⟨10, ⟨1, ⟨1, 0⟩, ⟨[]⟩⟩, ⟨2, ⟨0, 0⟩, ⟨[]⟩⟩, ⟨[]⟩⟩ =
      none ∧
    AdjustEdgesScorer.score ⟨[10], [(11, 42)]⟩ ⟨11, ⟨1, ⟨1, 0⟩, ⟨[]⟩⟩, ⟨2, ⟨0, 0⟩, ⟨[]⟩⟩, ⟨[]⟩⟩ =
      some 42 ∧
    AdjustEdgesScorer.score
      (AdjustEdgesScorer.openEdges ⟨[10], [(11, 42)]⟩ [10])
      ⟨10, ⟨1, ⟨1, 0⟩, ⟨[]⟩⟩, ⟨2, ⟨0, 0⟩, ⟨[]⟩⟩, ⟨[]⟩⟩ ≠ none := by
  refine ⟨?_, ?_, ?_⟩
  · exact (adjust_edges_scoring ⟨[10], [(11, 42)]⟩
      ⟨10, ⟨1, ⟨1, 0⟩, ⟨[]⟩⟩, ⟨2, ⟨0, 0⟩, ⟨[]⟩⟩, ⟨[]⟩⟩).1.mpr (by decide)
  · exact (adjust_edges_scoring ⟨[10], [(11, 42)]⟩
      ⟨11, ⟨1, ⟨1, 0⟩, ⟨[]⟩⟩, ⟨2, ⟨0, 0⟩, ⟨[]⟩⟩, ⟨[]⟩⟩).2.1 42 (by decide) (by decide)
  · exact (adjust_edges_scoring ⟨[10], [(11, 42)]⟩
      ⟨10, ⟨1, ⟨1, 0⟩, ⟨[]⟩⟩, ⟨2, ⟨0, 0⟩, ⟨[]⟩⟩, ⟨[]⟩⟩).2.2.2

/-- C5: the Time Scorer's cost follows strict priority — `abs_time_taken`
metadata is used directly when present; otherwise the cost is the
Euclidean distance divided by `abs_speed_limit` metadata when present,
and by the configured default maximum speed when not; re-adding
`abs_time_taken` restores the measured-time cost. -/
theorem time_scorer_priority (hy : ℚ → ℚ → ℚ) (max_speed : ℚ)
    (edge : DirectionalEdge) (dist : ℚ)
    (hdist : hy (edge.endN.coords.x - edge.start.coords.x)
      (edge.endN.coords.y - edge.start.coords.y) = dist)
    (_hsq : dist ^ 2 = (edge.endN.coords.x - edge.start.coords.x) ^ 2 +
      (edge.endN.coords.y - edge.start.coords.y) ^ 2)
    (_hnonneg : 0 ≤ dist) :
    (∀ t, edge.metadata.getValue "abs_time_taken" = some (MetaVal.f t) →
      TimeScorer.score hy max_speed edge = some t) ∧
    (∀ s, edge.metadata.getValue "abs_time_taken" = none →
      edge.metadata.getValue "abs_speed_limit" = some (MetaVal.f s) →
      TimeScorer.score hy max_speed edge = some (dist / s)) ∧
    (edge.metadata.getValue "abs_time_taken" = none →
      edge.metadata.getValue "abs_speed_limit" = none →
      TimeScorer.score hy max_speed edge = some (dist / max_speed)) ∧
    (∀ t, TimeScorer.score hy max_speed
        { edge with metadata := edge.metadata.setValue "abs_time_taken" (MetaVal.f t) } =
      some t) := by
  refine ⟨?_, ?_, ?_, ?_⟩
  · intro t ht
    simp only [TimeScorer.score, ht]
  · intro s ht hs
    simp only [TimeScorer.score, ht, hs, hdist]
  · intro ht hs
    simp only [TimeScorer.score, ht, hs, hdist]
  · intro t
    simp only [TimeScorer.score, Metadata.getValue_setValue_self]

/-- Witness for C5, mirroring the test: on a length-1 edge,
`abs_time_taken = 10` yields cost `10`; with empty metadata the cost is
`1 / (1/2) = 2`; with `abs_speed_limit = 0.85` the cost is `20/17`;
re-adding `abs_time_taken` restores `10`. -/
theorem time_scorer_priority_witness :
    TimeScorer.score (fun _ _ => (1 : ℚ)) TimeScorer.default_max_speed
      ⟨10, ⟨1, ⟨1, 0⟩, ⟨[]⟩⟩, ⟨2, ⟨0, 0⟩, ⟨[]⟩⟩, ⟨[("abs_time_taken", MetaVal.f 10)]⟩⟩ =
      some 10 ∧
    TimeScorer.score (fun _ _ => (1 : ℚ)) TimeScorer.default_max_speed
      ⟨10, ⟨1, ⟨1, 0⟩, ⟨[]⟩⟩, ⟨2, ⟨0, 0⟩, ⟨[]⟩⟩, ⟨[]⟩⟩ = some 2 ∧
    TimeScorer.score (fun _ _ => (1 : ℚ)) TimeScorer.default_max_speed
      ⟨10, ⟨1, ⟨1, 0⟩, ⟨[]⟩⟩, ⟨2, ⟨0, 0⟩, ⟨[]⟩⟩,
        ⟨[("abs_speed_limit", MetaVal.f (17 / 20))]⟩⟩ = some (20 / 17) ∧
    TimeScorer.score (fun _ _ => (1 : ℚ)) TimeScorer.default_max_speed
      ⟨10, ⟨1, ⟨1, 0⟩, ⟨[]⟩⟩, ⟨2, ⟨0, 0⟩, ⟨[]⟩⟩,
        Metadata.setValue ⟨[("abs_speed_limit", MetaVal.f (17 / 20))]⟩
          "abs_time_taken" (MetaVal.f 10)⟩ = some 10 := by
  refine ⟨?_, ?_, ?_, ?_⟩
  · exact (time_scorer_priority (fun _ _ => (1 : ℚ)) TimeScorer.default_max_speed
      ⟨10, ⟨1, ⟨1, 0⟩, ⟨[]⟩⟩, ⟨2, ⟨0, 0⟩, ⟨[]⟩⟩, ⟨[("abs_time_taken", MetaVal.f 10)]⟩⟩ 1
      rfl (by norm_num) (by norm_num)).1 10 rfl
  · have h := (time_scorer_priority (fun _ _ => (1 : ℚ)) TimeScorer.default_max_speed
      ⟨10, ⟨1, ⟨1, 0⟩, ⟨[]⟩⟩, ⟨2, ⟨0, 0⟩, ⟨[]⟩⟩, ⟨[]⟩⟩ 1
      rfl (by norm_num) (by norm_num)).2.2.1 rfl rfl
    rw [h]
    norm_num [TimeScorer.default_max_speed]
  · have h := (time_scorer_priority (fun _ _ => (1 : ℚ)) TimeScorer.default_max_speed
      ⟨10, ⟨1, ⟨1, 0⟩, ⟨[]⟩⟩, ⟨2, ⟨0, 0⟩, ⟨[]⟩⟩,
        ⟨[("abs_speed_limit", MetaVal.f (17 / 20))]⟩⟩ 1
      rfl (by norm_num) (by norm_num)).2.1 (17 / 20) rfl rfl
    rw [h]
    norm_num
  · exact (time_scorer_priority (fun _ _ => (1 : ℚ)) TimeScorer.default_max_speed
      ⟨10, ⟨1, ⟨1, 0⟩, ⟨[]⟩⟩, ⟨2, ⟨0, 0⟩, ⟨[]⟩⟩,
        ⟨[("abs_speed_limit", MetaVal.f (17 / 20))]⟩⟩ 1
      rfl (by norm_num) (by norm_num)).2.2.2 10

/-- C6: with no raster ever supplied, the Costmap Scorer under its
default policy scores every edge not-traversable (a normal outcome,
returned as a value, not an error); under a policy where off-map is
non-fatal, raster absence behaves like an off-map segment: traversable
with cost `0`. -/
theorem costmap_scorer_no_raster (hy : ℚ → ℚ → ℚ) (x0 y0 x1 y1 : ℚ)
    (cfg : CostmapConfig) (hoff : cfg.invalid_off_map = false) :
    CostmapScorer.score hy CostmapScorer.defaultConfig none x0 y0 x1 y1 = none ∧
    CostmapScorer.score hy cfg none x0 y0 x1 y1 = some 0 := by
  constructor
  · rfl
  · simp only [CostmapScorer.score, hoff]
    rfl

/-- Witness for C6: with no raster, the default policy scores the
segment `(1,1) → (6,1)` not-traversable, while the alternate policy of
the tests (average aggregation, collision and off-map non-fatal) yields
cost `0`, traversable. -/
theorem costmap_scorer_no_raster_witness :
    CostmapScorer.score (fun _ _ => (5 : ℚ)) CostmapScorer.defaultConfig none 1 1 6 1 =
      none ∧
    CostmapScorer.score (fun _ _ => (5 : ℚ)) ⟨false, false, false⟩ none 1 1 6 1 =
      some 0 :=
  costmap_scorer_no_raster (fun _ _ => (5 : ℚ)) 1 1 6 1 ⟨false, false, false⟩ rfl

/-- C7: in value mode the Semantic Scorer's cost sums the configured
weights of the class value stored under metadata key `"class"` on the
edge and, independently, on the end node; the same known class on both
is counted twice; an unknown class value contributes nothing; and when
no class resolves on either, the cost is `0` and the edge remains
traversable (the scorer always returns a cost). -/
theorem semantic_scorer_value_mode (semantic_classes : List (String × ℚ))
    (edge : DirectionalEdge) :
    (∀ ce cn, edge.metadata.getValue "class" = some (MetaVal.s ce) →
      edge.endN.metadata.getValue "class" = some (MetaVal.s cn) →
      SemanticScorer.score semantic_classes "class" edge =
        some (classWeight semantic_classes ce + classWeight semantic_classes cn)) ∧
    (∀ c w, edge.metadata.getValue "class" = some (MetaVal.s c) →
      edge.endN.metadata.getValue "class" = some (MetaVal.s c) →
      semantic_classes.lookup c = some w →
      SemanticScorer.score semantic_classes "class" edge = some (2 * w)) ∧
    (∀ c, semantic_classes.lookup c = none → classWeight semantic_classes c = 0) ∧
    (edge.metadata.getValue "class" = none →
      edge.endN.metadata.getValue "class" = none →
      SemanticScorer.score semantic_classes "class" edge = some 0) := by
  have hkey : ("class" : String) = "" ↔ False := by simp
  refine ⟨?_, ?_, ?_, ?_⟩
  · intro ce cn hce hcn
    simp only [SemanticScorer.score, SemanticScorer.metadataContribution, hkey,
      if_false, hce, hcn]
  · intro c w hce hcn hw
    simp only [SemanticScorer.score, SemanticScorer.metadataContribution, hkey,
      if_false, hce, hcn, classWeight, hw, Option.getD_some]
    rw [two_mul]
  · intro c hc
    simp [classWeight, hc]
  · intro hce hcn
    simp only [SemanticScorer.score, SemanticScorer.metadataContribution, hkey,
      if_false, hce, hcn]
    norm_num

/-- Witness for C7, mirroring the test: classes `Test ↦ 0`, `Test1 ↦ 1`,
`Test2 ↦ 2`; the edge and its end node both carrying class `"Test2"`
yield cost `4`; the unknown class `"Test4"` on both yields cost `0`. -/
theorem semantic_scorer_value_mode_witness :
    SemanticScorer.score [("Test", 0), ("Test1", 1), ("Test2", 2)] "class"
      ⟨10, ⟨1, ⟨1, 0⟩, ⟨[]⟩⟩, ⟨2, ⟨0, 0⟩, ⟨[("class", MetaVal.s "Test2")]⟩⟩,
        ⟨[("class", MetaVal.s "Test2")]⟩⟩ = some 4 ∧
    SemanticScorer.score [("Test", 0), ("Test1", 1), ("Test2", 2)] "class"
      ⟨10, ⟨1, ⟨1, 0⟩, ⟨[]⟩⟩, ⟨2, ⟨0, 0⟩, ⟨[("class", MetaVal.s "Test4")]⟩⟩,
        ⟨[("class", MetaVal.s "Test4")]⟩⟩ = some 0 := by
  constructor
  · have h := (semantic_scorer_value_mode [("Test", 0), ("Test1", 1), ("Test2", 2)]
      ⟨10, ⟨1, ⟨1, 0⟩, ⟨[]⟩⟩, ⟨2, ⟨0, 0⟩, ⟨[("class", MetaVal.s "Test2")]⟩⟩,
        ⟨[("class", MetaVal.s "Test2")]⟩⟩).2.1 "Test2" 2 rfl rfl rfl
    rw [h]
    norm_num
  · have h := (semantic_scorer_value_mode [("Test", 0), ("Test1", 1), ("Test2", 2)]
      ⟨10, ⟨1, ⟨1, 0⟩, ⟨[]⟩⟩, ⟨2, ⟨0, 0⟩, ⟨[("class", MetaVal.s "Test4")]⟩⟩,
        ⟨[("class", MetaVal.s "Test4")]⟩⟩).1 "Test4" "Test4" rfl rfl
    rw [h, show classWeight [("Test", (0 : ℚ)), ("Test1", 1), ("Test2", 2)] "Test4" = 0
      from rfl]
    norm_num

/-- C8: construction of the composite scoring engine fails with a
`ConfigurationError` exactly when some configured plugin name cannot be
resolved, and on successful construction `numPlugins` equals the number
of configured (hence successfully resolved) plugins. -/
theorem edge_scorer_construction
    (registry : String → Option (DirectionalEdge → Option ℚ))
    (names : List String) :
    ((∃ nm ∈ names, registry nm = none) ↔
      ∃ err, EdgeScorer.loadPlugins registry names = Except.error err) ∧
    (∀ plugins, EdgeScorer.loadPlugins registry names = Except.ok plugins →
      EdgeScorer.numPlugins plugins = names.length) := by
  induction names with
  | nil =>
    refine ⟨⟨?_, ?_⟩, ?_⟩
    · rintro ⟨nm, hnm, _⟩
      simp at hnm
    · rintro ⟨err, herr⟩
      simp [EdgeScorer.loadPlugins] at herr
    · intro plugins h
      simp only [EdgeScorer.loadPlugins, Except.ok.injEq] at h
      rw [← h]
      rfl
  | cons nm rest ih =>
    rcases hreg : registry nm with _ | p
    · refine ⟨⟨fun _ => ⟨⟨nm⟩, by simp [EdgeScorer.loadPlugins, hreg]⟩,
        fun _ => ⟨nm, List.mem_cons_self nm rest, hreg⟩⟩, ?_⟩
      intro plugins h
      simp [EdgeScorer.loadPlugins, hreg] at h
    · rcases hrest : EdgeScorer.loadPlugins registry rest with err | ps
      · obtain ⟨nm2, h2, h3⟩ := ih.1.mpr ⟨err, hrest⟩
        refine ⟨⟨fun _ => ⟨err, by simp [EdgeScorer.loadPlugins, hreg, hrest]⟩,
          fun _ => ⟨nm2, List.mem_cons_of_mem nm h2, h3⟩⟩, ?_⟩
        intro plugins h
        simp [EdgeScorer.loadPlugins, hreg, hrest] at h
      · refine ⟨⟨?_, ?_⟩, ?_⟩
        · rintro ⟨nm2, hmem, hnone⟩
          rcases List.mem_cons.mp hmem with heq | hmem2
          · rw [heq] at hnone
            rw [hreg] at hnone
            cases hnone
          · obtain ⟨err, herr⟩ := ih.1.mp ⟨nm2, hmem2, hnone⟩
            rw [herr] at hrest
            cases hrest
        · rintro ⟨err, herr⟩
          simp [EdgeScorer.loadPlugins, hreg, hrest] at herr
        · intro plugins h
          simp only [EdgeScorer.loadPlugins, hreg, hrest, Except.ok.injEq] at h
          rw [← h]
          have hlen := ih.2 ps hrest
          simp only [EdgeScorer.numPlugins, List.length_cons] at hlen ⊢
          rw [hlen]

/-- Witness for C8, mirroring the tests: against a registry resolving
only `"AdjustEdgesScorer"`, configuring the unknown `"FakeScorer"` makes
construction fail, and configuring `"AdjustEdgesScorer"` succeeds with
`numPlugins = 1`. -/
theorem edge_scorer_construction_witness :
    (∃ err, EdgeScorer.loadPlugins
      (fun s => if s = "AdjustEdgesScorer" then some (fun _ => some 0) else none)
      ["FakeScorer"] = Except.error err) ∧
    EdgeScorer.numPlugins [fun _ => some 0] = (["AdjustEdgesScorer"] : List String).length := by
  constructor
  · exact (edge_scorer_construction
      (fun s => if s = "AdjustEdgesScorer" then some (fun _ => some 0) else none)
      ["FakeScorer"]).1.mp ⟨"FakeScorer", List.mem_cons_self _ _, rfl⟩
  · exact (edge_scorer_construction
      (fun s => if s = "AdjustEdgesScorer" then some (fun _ => some 0) else none)
      ["AdjustEdgesScorer"]).2 [fun _ => some 0] rfl

end Nav2Route
